import Mathlib

/-!
Verification of the ADML parser/serializer core
(`packages/parser/src/index.ts`, current version).

The embedding is a direct shallow translation of the TypeScript source:

* JSON-like values become the inductive `Value`.  JavaScript objects are
  modelled as association lists (`List (String × Value)`) so that key
  insertion order and key presence — both observable through
  `Object.entries`, the `in` operator and serialization — are captured.
* JavaScript numbers are modelled as exact rationals (`ℚ`).  The parser
  only ever creates numbers from decimal literals matching
  `^-?\d+(\.\d+)?$` via `parseFloat`, and the serializer prints them back
  in plain decimal notation; for such values the rational model agrees
  with IEEE doubles at every point exercised here (IEEE rounding of long
  literals and exponent-notation printing of huge/tiny magnitudes are the
  only divergences, and nothing below goes near them).
* The line-driven recursive-descent parsers are translated as
  fuel-indexed structural recursions (so every definition is a
  computable `def` the kernel can evaluate).  The JavaScript functions
  take `(lines, startIndex)` and return an `endIndex`; since they only
  ever move forward, the embedding passes the suffix of unconsumed lines
  instead of an index and returns the remaining suffix.  The wrappers
  (`parse`, `parseArray`, …) supply fuel that strictly exceeds the
  length of any call chain reachable on their input, so the fuel-out
  branches are unreachable through the wrappers.
* Mutation of the accumulating result object (`setByPath`,
  `Object.assign`) becomes explicit state passing over association
  lists.
-/

/-- The value space of the parser: strings, numbers, booleans, ordered
lists, and key-ordered mappings (JavaScript objects as association
lists, preserving insertion order). -/
inductive Value where
  | str : String → Value
  | num : ℚ → Value
  | bool : Bool → Value
  | list : List Value → Value
  | obj : List (String × Value) → Value
deriving Repr

/-- A JavaScript object / the parser's `ADMLResult`: ordered key/value pairs. -/
abbrev Obj := List (String × Value)

mutual
/-- Structural (deep) equality test on `Value`, the equality used by the
spec's "deep structural equality over the Value tree". -/
def beqV : Value → Value → Bool
  | .str a, .str b => a == b
  | .num a, .num b => a == b
  | .bool a, .bool b => a == b
  | .list a, .list b => beqL a b
  | .obj a, .obj b => beqO a b
  | _, _ => false
def beqL : List Value → List Value → Bool
  | [], [] => true
  | a :: t, b :: u => beqV a b && beqL t u
  | _, _ => false
def beqO : Obj → Obj → Bool
  | [], [] => true
  | (k, a) :: t, (k2, b) :: u => k == k2 && (beqV a b && beqO t u)
  | _, _ => false
end

mutual
theorem beqV_iff : ∀ a b : Value, beqV a b = true ↔ a = b
  | .str _, .str _ => by simp [beqV]
  | .num _, .num _ => by simp [beqV]
  | .bool _, .bool _ => by simp [beqV]
  | .list a, .list b => by simp [beqV, beqL_iff a b]
  | .obj a, .obj b => by simp [beqV, beqO_iff a b]
  | .str _, .num _ => by simp [beqV]
  | .str _, .bool _ => by simp [beqV]
  | .str _, .list _ => by simp [beqV]
  | .str _, .obj _ => by simp [beqV]
  | .num _, .str _ => by simp [beqV]
  | .num _, .bool _ => by simp [beqV]
  | .num _, .list _ => by simp [beqV]
  | .num _, .obj _ => by simp [beqV]
  | .bool _, .str _ => by simp [beqV]
  | .bool _, .num _ => by simp [beqV]
  | .bool _, .list _ => by simp [beqV]
  | .bool _, .obj _ => by simp [beqV]
  | .list _, .str _ => by simp [beqV]
  | .list _, .num _ => by simp [beqV]
  | .list _, .bool _ => by simp [beqV]
  | .list _, .obj _ => by simp [beqV]
  | .obj _, .str _ => by simp [beqV]
  | .obj _, .num _ => by simp [beqV]
  | .obj _, .bool _ => by simp [beqV]
  | .obj _, .list _ => by simp [beqV]
theorem beqL_iff : ∀ a b : List Value, beqL a b = true ↔ a = b
  | [], [] => by simp [beqL]
  | a :: t, b :: u => by simp [beqL, beqV_iff a b, beqL_iff t u]
  | [], _ :: _ => by simp [beqL]
  | _ :: _, [] => by simp [beqL]
theorem beqO_iff : ∀ a b : Obj, beqO a b = true ↔ a = b
  | [], [] => by simp [beqO]
  | (k, a) :: t, (k2, b) :: u => by
      simp [beqO, beqV_iff a b, beqO_iff t u, Prod.ext_iff, and_assoc]
  | [], _ :: _ => by simp [beqO]
  | _ :: _, [] => by simp [beqO]
end

instance : DecidableEq Value := fun a b => decidable_of_iff _ (beqV_iff a b)

/-! ### Character-level string toolkit

The JavaScript string operations used by the source (`trim`, `split`,
`indexOf`, `substring`, `startsWith`, `endsWith`, `includes`) are
modelled on the character list underlying a Lean `String`, so that the
proofs below can reason with ordinary list lemmas. -/

/-- JavaScript `String.prototype.trim` (whitespace from both ends). -/
def jsTrim (s : String) : String :=
  ⟨((s.toList.dropWhile Char.isWhitespace).reverse.dropWhile Char.isWhitespace).reverse⟩

/-- Does the character list `pre` start the character list `s`? -/
def listStarts : List Char → List Char → Bool
  | [], _ => true
  | _ :: _, [] => false
  | a :: t, b :: u => a = b && listStarts t u

/-- JavaScript `s.startsWith(pre)`. -/
def jsStartsWith (s pre : String) : Bool := listStarts pre.toList s.toList

/-- JavaScript `s.endsWith(suf)`. -/
def jsEndsWith (s suf : String) : Bool := listStarts suf.toList.reverse s.toList.reverse

/-- JavaScript `s.substring(0, n)` (also `s.slice(0, n)` for `n ≥ 0`). -/
def jsTake (s : String) (n : Nat) : String := ⟨s.toList.take n⟩

/-- JavaScript `s.substring(n)`. -/
def jsDrop (s : String) (n : Nat) : String := ⟨s.toList.drop n⟩

/-- JavaScript `s.substring(0, s.length - n)`. -/
def jsDropRight (s : String) (n : Nat) : String :=
  ⟨s.toList.take (s.toList.length - n)⟩

/-- Index of the first character satisfying `p`, if any. -/
def firstIdx (p : Char → Bool) : List Char → Option Nat
  | [] => none
  | c :: t => if p c then some 0 else (firstIdx p t).map (· + 1)

/-- JavaScript `s.indexOf(':')`, with `none` for `-1`. -/
def colonIdx (s : String) : Option Nat := firstIdx (· = ':') s.toList

/-- Was a colon found at a positive index?  (The source guards every
key/value branch with `colonIndex > 0`.) -/
def colonGt0 (s : String) : Bool :=
  match colonIdx s with
  | some i => decide (0 < i)
  | none => false

/-- The key of a `key: value` line: `trimmed.substring(0, colonIndex).trim()`. -/
def keyBeforeColon (s : String) : String :=
  jsTrim (jsTake s ((colonIdx s).getD 0))

/-- The value text of a `key: value` line:
`trimmed.substring(colonIndex + 1).trim()`. -/
def valAfterColon (s : String) : String :=
  jsTrim (jsDrop s ((colonIdx s).getD 0 + 1))

/-- JavaScript `s.includes(c)` for a single character. -/
def strContains (s : String) (c : Char) : Bool := s.toList.contains c

/-- Split a character list at every occurrence of `sep` (JavaScript
`String.prototype.split` with a one-character separator: keeps empty
pieces, yields `[""]` on the empty string). -/
def splitOnChar (sep : Char) : List Char → List (List Char)
  | [] => [[]]
  | c :: t =>
    let r := splitOnChar sep t
    if c = sep then [] :: r
    else
      match r with
      | h :: t2 => (c :: h) :: t2
      | [] => [[c]]

/-- JavaScript `input.split('\n')`. -/
def splitLines (input : String) : List String :=
  (splitOnChar '\n' input.toList).map List.asString

/-- JavaScript `parts.split('.')` on a string. -/
def splitDots (s : String) : List String :=
  (splitOnChar '.' s.toList).map List.asString

/-- JavaScript `arr.join(sep)`. -/
def jsJoin (sep : String) : List String → String
  | [] => ""
  | [x] => x
  | x :: t => x ++ sep ++ jsJoin sep t

/-! ### Comment stripper (`stripMultilineComments`) -/

/-- Character-level worker for `stripMultilineComments`: scans left to
right; inside a block comment drops characters until `*/`, outside
copies characters and switches state at `/*`. -/
def stripMC : List Char → Bool → List Char × Bool
  | [], inC => ([], inC)
  | '*' :: '/' :: rest, true => stripMC rest false
  | _ :: rest, true => stripMC rest true
  | '/' :: '*' :: rest, false => stripMC rest true
  | c :: rest, false =>
      let r := stripMC rest false
      (c :: r.1, r.2)

/-- `stripMultilineComments(line, inComment)` from the source: returns the
visually stripped line and the carried-out in-comment flag. -/
def stripMultilineComments (line : String) (inComment : Bool) : String × Bool :=
  let r := stripMC line.toList inComment
  (⟨r.1⟩, r.2)

/-! ### Scalar coercion (`parseValue`) -/

/-- `\d+`: a non-empty run of ASCII digits. -/
def digits1 (cs : List Char) : Bool := !cs.isEmpty && cs.all Char.isDigit

/-- Full-string match of the source's number regex `^-?\d+(\.\d+)?$`. -/
def matchesNumber (s : String) : Bool :=
  let cs := match s.toList with
    | '-' :: rest => rest
    | cs => cs
  match firstIdx (· = '.') cs with
  | none => digits1 cs
  | some i => digits1 (cs.take i) && digits1 (cs.drop (i + 1))

/-- Numeric value of a digit run. -/
def digitsToNat (cs : List Char) : Nat :=
  cs.foldl (fun a c => a * 10 + (c.toNat - 48)) 0

/-- `parseFloat` on a string matching `^-?\d+(\.\d+)?$`: the exact
rational value of the decimal literal.  (IEEE doubles round literals
with more than 17 significant digits; the exact rational is used as the
number model, see the header note.) -/
def decToRat (s : String) : ℚ :=
  let (sign, cs) : Int × List Char := match s.toList with
    | '-' :: rest => (-1, rest)
    | cs => (1, cs)
  match firstIdx (· = '.') cs with
  | none => mkRat (sign * digitsToNat cs) 1
  | some i =>
      let intPart := cs.take i
      let frac := cs.drop (i + 1)
      mkRat (sign * (digitsToNat intPart * 10 ^ frac.length + digitsToNat frac))
        (10 ^ frac.length)

/-- `parseValue` from the source: `"true"`/`"false"` become booleans, a
full-string decimal literal becomes a number, anything else stays a
string. -/
def parseValue (value : String) : Value :=
  if value = "true" then .bool true
  else if value = "false" then .bool false
  else if matchesNumber value then .num (decToRat value)
  else .str value

/-! ### Association-list primitives for JavaScript objects -/

/-- Lookup of `o[k]` (`undefined` becomes `none`). -/
def assocGet : Obj → String → Option Value
  | [], _ => none
  | (k2, v) :: t, k => if k2 = k then some v else assocGet t k

/-- Assignment `o[k] = v`: updates in place when the key exists
(preserving its position), otherwise appends — JavaScript property
insertion order. -/
def assocSet : Obj → String → Value → Obj
  | [], k, v => [(k, v)]
  | (k2, w) :: t, k, v => if k2 = k then (k, v) :: t else (k2, w) :: assocSet t k v

/-- JavaScript `delete o[k]` (used for the reserved `value`/`mods` keys). -/
def assocRemove : Obj → String → Obj
  | [], _ => []
  | (k2, w) :: t, k => if k2 = k then t else (k2, w) :: assocRemove t k

/-- `Object.assign(target, incoming)`: writes each key of `incoming` in
order into `target`. -/
def objAssign (target incoming : Obj) : Obj :=
  incoming.foldl (fun acc kv => assocSet acc kv.1 kv.2) target

/-- Is the value a mapping?  (`typeof v === 'object' && v !== null &&
!Array.isArray(v)` on the modelled value space.) -/
def isObjV : Value → Bool
  | .obj _ => true
  | _ => false

/-! ### Path merger (`setByPath`) -/

/-- Worker for `setByPath` on an already-split path.  For every segment
but the last it descends into an existing mapping at that key, replacing
anything that is not a mapping by a fresh one; at the last segment it
merges mapping-into-mapping via `Object.assign` and otherwise assigns. -/
def setByPathParts : Obj → List String → Value → Obj
  | o, [], _ => o
  | o, [k], v =>
      match assocGet o k, v with
      | some (.obj ex), .obj inc => assocSet o k (.obj (objAssign ex inc))
      | _, _ => assocSet o k v
  | o, k :: k2 :: rest, v =>
      let inner : Obj := match assocGet o k with
        | some (.obj ex) => ex
        | _ => []
      assocSet o k (.obj (setByPathParts inner (k2 :: rest) v))

/-- `setByPath(obj, path, value)` from the source (pure state-passing
version: returns the updated object).  `path.split('.')` is never empty,
so the `[]` case of the worker is unreachable. -/
def setByPath (o : Obj) (path : String) (v : Value) : Obj :=
  setByPathParts o (splitDots path) v

/-! ### Content header parser (`parseContentHeader`) -/

/-- Result of `parseContentHeader`. -/
structure CHeader where
  type : String
  value : String
  mods : List String
deriving Repr, DecidableEq

/-- `parseContentHeader(text)`: decodes `#type.mod1.mod2: value`; without
the leading `#` the whole text is a default paragraph. -/
def parseContentHeader (text : String) : CHeader :=
  let trimmed := jsTrim text
  if !jsStartsWith trimmed "#" then
    { type := "p", value := trimmed, mods := [] }
  else
    let withoutHash := jsDrop trimmed 1
    let (typeMods, value) : String × String :=
      match colonIdx withoutHash with
      | none => (jsTrim withoutHash, "")
      | some i => (jsTrim (jsTake withoutHash i), jsTrim (jsDrop withoutHash (i + 1)))
    let parts := splitDots typeMods
    { type := parts.headD "", value := value, mods := parts.tail }

/-! ### Content-item construction (the `<...>` block post-processing) -/

/-- Builds the content item pushed by the `<...>` branch of
`parseContentArray`: a reserved `value` key in the props overrides the
content value and is deleted; a reserved `mods` key that is an array
overrides the header modifiers and is deleted; the result always carries
all four keys `type`, `value`, `mods`, `props` in that insertion
order.  Header modifiers (strings in the source) are injected into
`Value` with `Value.str`. -/
def mkContentItem (ty : String) (cv : Value) (hmods : List String) (props : Obj) : Value :=
  let (cv2, props2) : Value × Obj :=
    match assocGet props "value" with
    | some v => (v, assocRemove props "value")
    | none => (cv, props)
  let (mods, props3) : List Value × Obj :=
    match assocGet props2 "mods" with
    | some (.list m) => (m, assocRemove props2 "mods")
    | _ => (hmods.map Value.str, props2)
  .obj [("type", .str ty), ("value", cv2), ("mods", .list mods), ("props", .obj props3)]

/-! ### Multiline string capture -/

/-- The inner `while` of the `key::` branches: collects trimmed lines
until one whose raw trim is exactly `::` (content lines are *not*
comment-stripped).  `none` means end-of-input was reached without the
closing `::` — in that case the source never assigns the key. -/
def collectMultiline : List String → Option (List String × List String)
  | [] => none
  | l :: tl =>
    if jsTrim l = "::" then some ([], tl)
    else (collectMultiline tl).map (fun r => (jsTrim l :: r.1, r.2))

/-- Does the trimmed line close the current object-like block?
(`parse` runs with no closing delimiter.) -/
def closerHit (closer : Option String) (t : String) : Bool :=
  match closer with
  | some cl => t = cl
  | none => false

/-! ### The line-driven block parsers

Fuel-indexed translations of `parseArray`, `parseContentArray` and
`parseObjectLike`/`parse`.  Each returns `(value, unconsumed line
suffix, carried comment flag)`; the source's index-accumulating `while`
loops become recursion consuming the head line (the accumulated
array/object state is threaded exactly as in the source: arrays build
head-first, objects pass the `setByPath`-updated accumulator).  Fuel
decreases on every call; the fuel-out branches return the state
unchanged and are unreachable through the wrappers below, which pass
more fuel than the length of any possible call chain. -/

mutual
/-- `parseArray(lines, startIndex, inComment)` (lines after `[` until `]`). -/
def parseArrayFuel : Nat → List String → Bool → List Value × List String × Bool
  | 0, ls, c => ([], ls, c)
  | _ + 1, [], c => ([], [], c)
  | fuel + 1, l :: tl, c =>
    let st := stripMultilineComments l c
    let t := jsTrim st.1
    if t = "]" then ([], tl, st.2)
    else if t = "" || jsStartsWith t "//" then parseArrayFuel fuel tl st.2
    else if t = "[[" then
      let n := parseContentArrayFuel fuel tl st.2
      let r := parseArrayFuel fuel n.2.1 n.2.2
      (.list n.1 :: r.1, r.2)
    else if t = "[" then
      let n := parseArrayFuel fuel tl st.2
      let r := parseArrayFuel fuel n.2.1 n.2.2
      (.list n.1 :: r.1, r.2)
    else
      let r := parseArrayFuel fuel tl st.2
      (parseValue t :: r.1, r.2)

/-- `parseContentArray(lines, startIndex, inComment)` (lines after `[[`
until `]]`). -/
def parseContentArrayFuel : Nat → List String → Bool → List Value × List String × Bool
  | 0, ls, c => ([], ls, c)
  | _ + 1, [], c => ([], [], c)
  | fuel + 1, l :: tl, c =>
    let st := stripMultilineComments l c
    let t := jsTrim st.1
    if t = "]]" then ([], tl, st.2)
    else if t = "" || jsStartsWith t "//" then parseContentArrayFuel fuel tl st.2
    else if jsStartsWith t "<" then
      let header := parseContentHeader (jsTrim (jsDrop t 1))
      if jsEndsWith header.value "[[" then
        let n := parseContentArrayFuel fuel tl st.2
        let p := parseLinesFuel fuel (some ">") n.2.1 n.2.2 []
        let item := mkContentItem header.type (.list n.1) header.mods p.1
        let r := parseContentArrayFuel fuel p.2.1 p.2.2
        (item :: r.1, r.2)
      else
        let p := parseLinesFuel fuel (some ">") tl st.2 []
        let item := mkContentItem header.type (.str header.value) header.mods p.1
        let r := parseContentArrayFuel fuel p.2.1 p.2.2
        (item :: r.1, r.2)
    else if jsStartsWith t "#" then
      let header := parseContentHeader t
      let r := parseContentArrayFuel fuel tl st.2
      (.obj [("type", .str header.type), ("value", .str header.value),
             ("mods", .list (header.mods.map Value.str)), ("props", .obj [])] :: r.1, r.2)
    else
      let r := parseContentArrayFuel fuel tl st.2
      (.obj [("type", .str "p"), ("value", .str t),
             ("mods", .list []), ("props", .obj [])] :: r.1, r.2)

/-- `parseObjectLike(lines, startIndex, inComment, closer)`, and — with
`closer = none` — the body of the top-level `parse` loop, which has the
identical dispatch but no closing delimiter. -/
def parseLinesFuel : Nat → Option String → List String → Bool → Obj → Obj × List String × Bool
  | 0, _, ls, c, acc => (acc, ls, c)
  | _ + 1, _, [], c, acc => (acc, [], c)
  | fuel + 1, closer, l :: tl, c, acc =>
    let st := stripMultilineComments l c
    let t := jsTrim st.1
    if closerHit closer t then (acc, tl, st.2)
    else if t = "" || jsStartsWith t "//" then parseLinesFuel fuel closer tl st.2 acc
    else if jsEndsWith t "::" then
      let key := jsTrim (jsDropRight t 2)
      match collectMultiline tl with
      | some r =>
          parseLinesFuel fuel closer r.2 st.2
            (setByPath acc key (.str (jsJoin "\n" r.1)))
      | none => (acc, [], st.2)
    else if colonGt0 t && jsEndsWith t "[[" then
      let n := parseContentArrayFuel fuel tl st.2
      parseLinesFuel fuel closer n.2.1 n.2.2 (setByPath acc (keyBeforeColon t) (.list n.1))
    else if colonGt0 t && jsEndsWith t "[" then
      let n := parseArrayFuel fuel tl st.2
      parseLinesFuel fuel closer n.2.1 n.2.2 (setByPath acc (keyBeforeColon t) (.list n.1))
    else if colonGt0 t && jsEndsWith t "\x7b" then
      let n := parseLinesFuel fuel (some "\x7d") tl st.2 []
      parseLinesFuel fuel closer n.2.1 n.2.2 (setByPath acc (keyBeforeColon t) (.obj n.1))
    else if colonGt0 t && !jsEndsWith t "::" then
      parseLinesFuel fuel closer tl st.2
        (setByPath acc (keyBeforeColon t) (parseValue (valAfterColon t)))
    else parseLinesFuel fuel closer tl st.2 acc
end

/-- Fuel that strictly dominates the length of every call chain the
parsers can make on `ls` (each call in a chain consumes at least one
line or is terminal, and block openers add at most one extra call per
line). -/
def fuelFor (ls : List String) : Nat := 4 * ls.length + 16

/-- `parse(input)`: the exported whole-document parser. -/
def parse (input : String) : Obj :=
  let lines := splitLines input
  (parseLinesFuel (fuelFor lines) none lines false []).1

/-- `parseArray` wrapper on a line suffix. -/
def parseArray (ls : List String) (c : Bool) : List Value × List String × Bool :=
  parseArrayFuel (fuelFor ls) ls c

/-- `parseContentArray` wrapper on a line suffix. -/
def parseContentArray (ls : List String) (c : Bool) : List Value × List String × Bool :=
  parseContentArrayFuel (fuelFor ls) ls c

/-- `parseObjectLike` wrapper on a line suffix. -/
def parseObjectLike (ls : List String) (c : Bool) (closer : String) : Obj × List String × Bool :=
  parseLinesFuel (fuelFor ls) (some closer) ls c []

/-- `parseObject` = `parseObjectLike` closed by `}`. -/
def parseObject (ls : List String) (c : Bool) : Obj × List String × Bool :=
  parseObjectLike ls c "\x7d"

/-- `parseProps` = `parseObjectLike` closed by `>`. -/
def parseProps (ls : List String) (c : Bool) : Obj × List String × Bool :=
  parseObjectLike ls c ">"

/-! ### Value size (fuel measure for the serializer) -/

mutual
/-- Node count of a value tree; used to compute sufficient serializer fuel. -/
def szV : Value → Nat
  | .str _ => 1
  | .num _ => 1
  | .bool _ => 1
  | .list l => 1 + szL l
  | .obj o => 1 + szO o
def szL : List Value → Nat
  | [] => 0
  | v :: t => szV v + szL t
def szO : Obj → Nat
  | [] => 0
  | (_, v) :: t => szV v + szO t
end

/-! ### Content-array detection (`isContentArray`) -/

/-- One element of the detection: a non-null non-array `object` carrying
the four own properties `type`, `value`, `mods`, `props`. -/
def contentShaped : Value → Bool
  | .obj o =>
      (assocGet o "type").isSome && (assocGet o "value").isSome &&
      (assocGet o "mods").isSome && (assocGet o "props").isSome
  | _ => false

/-- `isContentArray(arr)` from the source: empty arrays are *not* content
arrays; otherwise every item must be content-shaped. -/
def isContentArray (arr : List Value) : Bool :=
  !arr.isEmpty && arr.all contentShaped

/-! ### Number printing and template-string coercion -/

/-- JavaScript `String(number)` for the numbers this serializer meets:
plain decimal notation without trailing fraction zeros.  Parser-produced
numbers always have a power-of-ten denominator; the final fallback (for
other rationals, where a double would print a rounded decimal) never
fires on parser output. -/
def numToString (q : ℚ) : String :=
  if q.den = 1 then toString q.num
  else
    match (List.range 40).find? (fun k => 10 ^ k % q.den = 0) with
    | some k =>
        let m := q.num.natAbs * 10 ^ k / q.den
        let ip := m / 10 ^ k
        let frS := Nat.repr (m % 10 ^ k)
        (if q.num < 0 then "-" else "") ++ Nat.repr ip ++ "." ++
          (⟨List.replicate (k - frS.length) '0'⟩ ++ frS)
    | none => toString q.num ++ "/" ++ toString q.den

mutual
/-- JavaScript template-string coercion `${v}` on the modelled values
(arrays join with commas, objects print `[object Object]`). -/
def jsToString : Value → String
  | .str s => s
  | .num q => numToString q
  | .bool b => if b then "true" else "false"
  | .list l => jsToStringL l
  | .obj _ => "[object Object]"
def jsToStringL : List Value → String
  | [] => ""
  | [v] => jsToString v
  | v :: t => jsToString v ++ "," ++ jsToStringL t
end

/-- `${x}` where `x` may be a missing property (`undefined`). -/
def jsToStringOpt : Option Value → String
  | some v => jsToString v
  | none => "undefined"

/-! ### Property access on items -/

/-- `item.k` for an object-valued item (`undefined` otherwise). -/
def getField (item : Value) (k : String) : Option Value :=
  match item with
  | .obj o => assocGet o k
  | _ => none

/-- `item.mods` as a list.  Parser-produced items always store an array
here; for a missing or non-array `mods` the source's `.length`/`.join`
accesses would misbehave or throw, which no reachable value triggers —
the model answers `[]` there. -/
def getModsList (item : Value) : List Value :=
  match getField item "mods" with
  | some (.list l) => l
  | _ => []

/-- `item.props` as an object (same proviso as `getModsList`). -/
def propsObj (item : Value) : Obj :=
  match getField item "props" with
  | some (.obj o) => o
  | _ => []

/-- `item.value` as a list when it is one. -/
def valueList (item : Value) : List Value :=
  match getField item "value" with
  | some (.list l) => l
  | _ => []

/-- `item.type === 'p'` (strict equality). -/
def typeIsP (item : Value) : Bool := getField item "type" = some (.str "p")

/-- `#type.mod1.mod2` for an item. -/
def typeModsOf (item : Value) : String :=
  match getModsList item with
  | [] => jsToStringOpt (getField item "type")
  | ms => jsToStringOpt (getField item "type") ++ "." ++ jsJoin "." (ms.map jsToString)

/-- `stringifyContentHeader(item)` from the source: `#type.mods: value`
when the value is a non-empty string, bare `#type.mods` otherwise. -/
def stringifyContentHeader (item : Value) : String :=
  match getField item "value" with
  | some (.str v) => if v ≠ "" then "#" ++ typeModsOf item ++ ": " ++ v else "#" ++ typeModsOf item
  | _ => "#" ++ typeModsOf item

/-! ### JSON fallback (`JSON.stringify`) for non-scalar array items -/

/-- JSON string escaping (quote, backslash and the common control
characters; other characters pass through — nothing reachable from the
parser needs more). -/
def jsonEscape (s : String) : String :=
  ⟨s.toList.foldr (fun c acc =>
    (if c = '"' then ['\\', '"']
     else if c = '\\' then ['\\', '\\']
     else if c = '\n' then ['\\', 'n']
     else if c = '\t' then ['\\', 't']
     else if c = '\r' then ['\\', 'r']
     else [c]) ++ acc) []⟩

/-- Fuel-indexed `JSON.stringify` on the modelled values. -/
def jsonStringifyFuel : Nat → Value → String
  | 0, _ => ""
  | _ + 1, .str s => "\"" ++ jsonEscape s ++ "\""
  | _ + 1, .num q => numToString q
  | _ + 1, .bool b => if b then "true" else "false"
  | fuel + 1, .list l => "[" ++ jsJoin "," (l.map (jsonStringifyFuel fuel)) ++ "]"
  | fuel + 1, .obj o =>
      "\x7b" ++
        jsJoin "," (o.map (fun kv => "\"" ++ jsonEscape kv.1 ++ "\":" ++ jsonStringifyFuel fuel kv.2)) ++
      "\x7d"

/-- `JSON.stringify(v)` (fuel dominated by the node count). -/
def jsonStringify (v : Value) : String := jsonStringifyFuel (szV v + 2) v

/-! ### The structural serializer

Fuel-indexed translations of `stringifyContentArray`, `stringifyArray`
and `stringifyObjectEntries`; as with the parsers, the wrappers pass
fuel exceeding the depth of any call chain (bounded by the node count),
so the fuel-out branches are unreachable through them. -/

mutual
/-- `stringifyContentArray(arr, indent)`. -/
def stringifyContentArrayFuel : Nat → List Value → String → List String
  | 0, _, _ => []
  | _ + 1, [], _ => []
  | fuel + 1, item :: rest, indent =>
    let hasProps :=
      match getField item "props" with
      | some (.obj o) => !o.isEmpty
      | some (.list l) => !l.isEmpty
      | _ => false
    let valueIsCA :=
      match getField item "value" with
      | some (.list l) => isContentArray l
      | _ => false
    let itemLines :=
      if hasProps || valueIsCA then
        let headLines :=
          if valueIsCA then
            (indent ++ "<#" ++ typeModsOf item ++ ": [[") ::
              (stringifyContentArrayFuel fuel (valueList item) (indent ++ "    ") ++
               [indent ++ "  ]]"])
          else
            match getField item "value" with
            | some (.str v) =>
                if v ≠ "" then [indent ++ "<#" ++ typeModsOf item ++ ": " ++ v]
                else [indent ++ "<#" ++ typeModsOf item]
            | _ => [indent ++ "<#" ++ typeModsOf item]
        headLines ++ stringifyObjectEntriesFuel fuel (propsObj item) (indent ++ "  ") ++
          [indent ++ ">"]
      else if typeIsP item && (getModsList item).isEmpty then
        [indent ++ jsToStringOpt (getField item "value")]
      else
        [indent ++ stringifyContentHeader item]
    itemLines ++ stringifyContentArrayFuel fuel rest indent

/-- `stringifyArray(arr, indent)`. -/
def stringifyArrayFuel : Nat → List Value → String → List String
  | 0, _, _ => []
  | _ + 1, [], _ => []
  | fuel + 1, item :: rest, indent =>
    (match item with
     | .list l =>
        if isContentArray l then
          (indent ++ "[[") ::
            (stringifyContentArrayFuel fuel l (indent ++ "  ") ++ [indent ++ "]]"])
        else
          (indent ++ "[") ::
            (stringifyArrayFuel fuel l (indent ++ "  ") ++ [indent ++ "]"])
     | .str s => [indent ++ s]
     | .num q => [indent ++ numToString q]
     | .bool b => [indent ++ (if b then "true" else "false")]
     | .obj o => [indent ++ jsonStringify (.obj o)]) ++
    stringifyArrayFuel fuel rest indent

/-- `stringifyObjectEntries(data, indent)`. -/
def stringifyObjectEntriesFuel : Nat → Obj → String → List String
  | 0, _, _ => []
  | _ + 1, [], _ => []
  | fuel + 1, (key, value) :: rest, indent =>
    (match value with
     | .str s =>
        if strContains s '\n' then [indent ++ key ++ "::", s, "::"]
        else [indent ++ key ++ ": " ++ s]
     | .num q => [indent ++ key ++ ": " ++ numToString q]
     | .bool b => [indent ++ key ++ ": " ++ (if b then "true" else "false")]
     | .list arr =>
        if isContentArray arr then
          (indent ++ key ++ ": [[") ::
            (stringifyContentArrayFuel fuel arr (indent ++ "  ") ++ [indent ++ "]]"])
        else
          (indent ++ key ++ ": [") ::
            (stringifyArrayFuel fuel arr (indent ++ "  ") ++ [indent ++ "]"])
     | .obj o =>
        (indent ++ key ++ ": \x7b") ::
          (stringifyObjectEntriesFuel fuel o (indent ++ "  ") ++ [indent ++ "\x7d"])) ++
    stringifyObjectEntriesFuel fuel rest indent
end

/-- `stringifyContentArray` wrapper. -/
def stringifyContentArray (arr : List Value) (indent : String) : List String :=
  stringifyContentArrayFuel (szL arr + 2) arr indent

/-- `stringifyArray` wrapper. -/
def stringifyArray (arr : List Value) (indent : String) : List String :=
  stringifyArrayFuel (szL arr + 2) arr indent

/-- `stringifyObjectEntries` wrapper. -/
def stringifyObjectEntries (data : Obj) (indent : String) : List String :=
  stringifyObjectEntriesFuel (szO data + 2) data indent

/-- `stringify(data)`: the exported whole-document serializer. -/
def stringify (data : Obj) : String :=
  jsJoin "\n" (stringifyObjectEntries data "")

/-! ### Inline markup parser (spec section 4.9)

The repository exports `parseContentValue`/`stringifyContentValue` from
the parser package — the test suite imports them from `./index` — but
the copy of `index.ts` available here predates them, so the inline
parser is modelled from the spec below. -/

/-- Character substitutions of spec 4.9, applied to non-HTML text: an
escaped `\"` becomes a literal quote (and is exempted from the quote
substitution), a plain `"` becomes a typographic right double quote,
and `--` becomes an en dash. -/
def applySubstitutions : List Char → List Char
  | [] => []
  | '\\' :: '"' :: r => '"' :: applySubstitutions r
  | '"' :: r => '”' :: applySubstitutions r
  | '-' :: '-' :: r => '–' :: applySubstitutions r
  | c :: r => c :: applySubstitutions r

/-- Modelled from the spec: bracket-content collection of the Inline
Markup Parser (spec 4.9) — reads up to the matching unescaped `]`,
un-escaping `\]` and `\[` to literals but *preserving* `\|` for the
later pipe split; an unterminated bracket runs to end of input (the
spec's pervasive leniency, section 7). -/
def collectBracket : List Char → List Char × List Char
  | [] => ([], [])
  | '\\' :: ']' :: r => let p := collectBracket r; (']' :: p.1, p.2)
  | '\\' :: '[' :: r => let p := collectBracket r; ('[' :: p.1, p.2)
  | '\\' :: '|' :: r => let p := collectBracket r; ('\\' :: '|' :: p.1, p.2)
  | ']' :: r => ([], r)
  | c :: r => let p := collectBracket r; (c :: p.1, p.2)

/-- Split bracket content on unescaped `|`, un-escaping the preserved
`\|` markers to literal pipes. -/
def splitParams : List Char → List (List Char)
  | [] => [[]]
  | '\\' :: '|' :: r =>
      (match splitParams r with
       | h :: t => ('|' :: h) :: t
       | [] => [['|']])
  | '|' :: r => [] :: splitParams r
  | c :: r =>
      (match splitParams r with
       | h :: t => (c :: h) :: t
       | [] => [[c]])

/-- The link-like test of spec 4.9: starts with `/`, `http://`,
`https://` or `@`. -/
def linkLike (s : String) : Bool :=
  jsStartsWith s "/" || jsStartsWith s "http://" ||
    jsStartsWith s "https://" || jsStartsWith s "@"

/-- An inline item `{type, value, mods?, props?}` — empty `mods` and
`props` are omitted (spec section 3: both are optional on InlineItem). -/
def mkInlineItem (ty v : String) (mods : List String) (props : Obj) : Value :=
  .obj ([("type", .str ty), ("value", .str v)] ++
    (if mods.isEmpty then [] else [("mods", .list (mods.map Value.str))]) ++
    (if props.isEmpty then [] else [("props", .obj props)]))

/-- Parameter classification of spec 4.9 (parameters after the value, in
order, 1-indexed): a `#type.mods` parameter sets the explicit type and
modifiers; the parameter at index 1, when link-like and not a type
parameter, becomes the `href` property; any other parameter containing a
colon is a scalar-coerced `key: value` property merged via the path
merger; remaining parameters are ignored. -/
def classifyParams : Nat → List String → Option (String × List String) → Obj → Bool →
    Option (String × List String) × Obj × Bool
  | _, [], ety, props, lk => (ety, props, lk)
  | i, p :: rest, ety, props, lk =>
    if jsStartsWith p "#" then
      let parts := splitDots (jsDrop p 1)
      classifyParams (i + 1) rest (some (parts.headD "", parts.tail)) props lk
    else if i = 1 && linkLike p then
      classifyParams (i + 1) rest ety (setByPath props "href" (.str p)) true
    else if strContains p ':' then
      match colonIdx p with
      | some j =>
          classifyParams (i + 1) rest ety
            (setByPath props (jsTrim (jsTake p j)) (parseValue (jsTrim (jsDrop p (j + 1))))) lk
      | none => classifyParams (i + 1) rest ety props lk
    else classifyParams (i + 1) rest ety props lk

/-- Modelled from the spec: one bracket span of the Inline Markup Parser
(spec 4.9).  The three literal bodies short-circuit to fixed HTML items;
otherwise the body splits on unescaped pipes into trimmed parameters,
parameter 0 is the value, the rest classify as in `classifyParams`, the
default type is `html` for a `<`-leading value and `strong` otherwise
(`a` when the link shorthand fired), and substitutions apply to the
value unless the resolved type is `html`. -/
def processBracket (body : List Char) : Value :=
  if body = [] then mkInlineItem "html" "&nbsp;" [] []
  else if body = ['/'] then mkInlineItem "html" "<br>" [] []
  else if body = ['-'] then mkInlineItem "html" "&shy;" [] []
  else
    let params := (splitParams body).map (fun p => jsTrim ⟨p⟩)
    let value := params.headD ""
    let r := classifyParams 1 params.tail none [] false
    let ty := match r.1 with
      | some et => et.1
      | none => if r.2.2 then "a" else if jsStartsWith value "<" then "html" else "strong"
    let mods := match r.1 with
      | some et => et.2
      | none => []
    let outVal := if ty = "html" then value else (⟨applySubstitutions value.toList⟩ : String)
    mkInlineItem ty outVal mods r.2.1

/-- Modelled from the spec: the scanning loop of the Inline Markup
Parser (spec 4.9) — text outside brackets accumulates into a pending
buffer flushed (with substitutions) as `text` items; escaped brackets
stay literal; each unescaped `[` opens a bracket span. -/
def scanInline : Nat → List Char → List Char → List Value
  | 0, _, buf =>
      if buf.isEmpty then [] else [mkInlineItem "text" ⟨applySubstitutions buf⟩ [] []]
  | fuel + 1, cs, buf =>
    match cs with
    | [] => if buf.isEmpty then [] else [mkInlineItem "text" ⟨applySubstitutions buf⟩ [] []]
    | '\\' :: '[' :: r => scanInline fuel r (buf ++ ['['])
    | '\\' :: ']' :: r => scanInline fuel r (buf ++ [']'])
    | '[' :: r =>
        let b := collectBracket r
        (if buf.isEmpty then [] else [mkInlineItem "text" ⟨applySubstitutions buf⟩ [] []]) ++
          (processBracket b.1 :: scanInline fuel b.2 [])
    | c :: r => scanInline fuel r (buf ++ [c])

/-- Modelled from the spec: `parseContentValue(text)` (the spec's
`parseInline`), the inline-markup entry point exported next to
`parse`/`stringify` (spec sections 4.9 and 6; absent from the available
copy of `index.ts`, which only its test suite's import reflects). -/
def parseContentValue (text : String) : List Value :=
  scanInline (text.toList.length + 2) text.toList []

/-! ## Supporting lemmas -/

/-- The keys of an object, in insertion order. -/
def objKeys (o : Obj) : List String := o.map Prod.fst

theorem objKeys_cons (k : String) (v : Value) (t : Obj) :
    objKeys ((k, v) :: t) = k :: objKeys t := rfl

/-- Assignment: the assigned key reads back the new value, others are untouched. -/
theorem assocGet_set (o : Obj) (k : String) (v : Value) (k2 : String) :
    assocGet (assocSet o k v) k2 = if k = k2 then some v else assocGet o k2 := by
  induction o with
  | nil => simp [assocSet, assocGet]
  | cons hd t ih =>
      obtain ⟨k3, w⟩ := hd
      by_cases h3 : k3 = k
      · subst h3
        by_cases h2 : k3 = k2 <;> simp [assocSet, assocGet, h2]
      · by_cases h2 : k3 = k2
        · subst h2
          have hne : ¬(k = k3) := fun h => h3 h.symm
          simp [assocSet, assocGet, h3, hne]
        · simp [assocSet, assocGet, h3, h2, ih]

/-- A lookup misses exactly when the key is absent. -/
theorem assocGet_eq_none (o : Obj) (k : String) :
    assocGet o k = none ↔ k ∉ objKeys o := by
  induction o with
  | nil => simp [assocGet, objKeys]
  | cons hd t ih =>
      obtain ⟨k3, w⟩ := hd
      by_cases h3 : k3 = k
      · subst h3
        simp [assocGet, objKeys_cons]
      · simp [assocGet, h3, objKeys_cons, ih, (show ¬(k = k3) from fun h => h3 h.symm)]

/-- Assignment preserves the key order, appending a genuinely new key. -/
theorem objKeys_set (o : Obj) (k : String) (v : Value) :
    objKeys (assocSet o k v) =
      if k ∈ objKeys o then objKeys o else objKeys o ++ [k] := by
  induction o with
  | nil => simp [assocSet, objKeys]
  | cons hd t ih =>
      obtain ⟨k3, w⟩ := hd
      by_cases h3 : k3 = k
      · subst h3
        simp [assocSet, objKeys_cons]
      · have hne : ¬(k = k3) := fun h => h3 h.symm
        simp only [assocSet, h3, if_false, objKeys_cons, ih]
        by_cases hm : k ∈ objKeys t
        · simp [hm, hne, List.mem_cons]
        · simp [hm, hne, List.mem_cons]

/-- `Object.assign`: for key-distinct incoming entries, a key reads back
the incoming value when the incoming mapping has it, and the target's
value otherwise (the merge is last-write-wins per key). -/
theorem objAssign_get (inc : Obj) : ∀ (t : Obj) (k : String), (objKeys inc).Nodup →
    assocGet (objAssign t inc) k =
      (match assocGet inc k with
       | some w => some w
       | none => assocGet t k) := by
  induction inc with
  | nil => intro t k _; simp [objAssign, assocGet]
  | cons hd rest ih =>
      intro t k hnd
      obtain ⟨k1, v1⟩ := hd
      rw [objKeys_cons, List.nodup_cons] at hnd
      obtain ⟨hk1, hndr⟩ := hnd
      have step : objAssign t ((k1, v1) :: rest) = objAssign (assocSet t k1 v1) rest := rfl
      rw [step, ih _ k hndr]
      by_cases h : k1 = k
      · subst h
        have hnone : assocGet rest k1 = none := (assocGet_eq_none rest k1).mpr hk1
        simp [assocGet, hnone, assocGet_set]
      · have hne : ¬(k = k1) := fun hx => h hx.symm
        simp [assocGet, h, assocGet_set]

/-- `Object.assign`: pre-existing keys keep their order, new incoming
keys are appended in incoming order. -/
theorem objAssign_keys (inc : Obj) : ∀ (t : Obj), (objKeys inc).Nodup →
    objKeys (objAssign t inc) =
      objKeys t ++ (objKeys inc).filter (fun x => decide (x ∉ objKeys t)) := by
  induction inc with
  | nil => intro t _; simp [objAssign, objKeys]
  | cons hd rest ih =>
      intro t hnd
      obtain ⟨k1, v1⟩ := hd
      rw [objKeys_cons, List.nodup_cons] at hnd
      obtain ⟨hk1, hndr⟩ := hnd
      have step : objAssign t ((k1, v1) :: rest) = objAssign (assocSet t k1 v1) rest := rfl
      rw [step, ih _ hndr, objKeys_set, objKeys_cons]
      by_cases hm : k1 ∈ objKeys t
      · simp only [hm, if_true, List.filter_cons]
        simp [hm]
      · have hfilter : (objKeys rest).filter (fun x => decide (x ∉ objKeys t ++ [k1])) =
            (objKeys rest).filter (fun x => decide (x ∉ objKeys t)) := by
          apply List.filter_congr
          intro x hx
          have hxne : x ≠ k1 := fun hx2 => hk1 (hx2 ▸ hx)
          simp [List.mem_append, hxne]
        rw [if_neg hm, hfilter]
        simp [List.filter_cons, hm, List.append_assoc]

/-- Comment stripping only ever removes characters. -/
theorem stripMC_subset : ∀ cs b, ∀ c ∈ (stripMC cs b).1, c ∈ cs := by
  intro cs b
  induction cs, b using stripMC.induct with
  | case1 inC => simp [stripMC]
  | case2 rest ih => intro c hc; exact List.mem_cons_of_mem _ (List.mem_cons_of_mem _ (ih c hc))
  | case3 x rest hx ih =>
      intro c hc
      rw [stripMC] at hc
      · exact List.mem_cons_of_mem _ (ih c hc)
      · exact hx
  | case4 rest ih => intro c hc; exact List.mem_cons_of_mem _ (List.mem_cons_of_mem _ (ih c hc))
  | case5 x rest hx ih =>
      intro c hc
      rw [stripMC] at hc
      · simp only [List.mem_cons] at hc
        rcases hc with rfl | hmem
        · exact List.mem_cons_self _ _
        · exact List.mem_cons_of_mem _ (ih c hmem)
      · exact hx

/-- Trimming only ever removes characters. -/
theorem jsTrim_subset (s : String) : ∀ c ∈ (jsTrim s).toList, c ∈ s.toList := by
  intro c hc
  simp only [jsTrim] at hc
  have h1 : c ∈ (s.toList.dropWhile Char.isWhitespace).reverse.dropWhile Char.isWhitespace := by
    simpa using hc
  have h2 := (List.dropWhile_suffix (l := (s.toList.dropWhile Char.isWhitespace).reverse)
    Char.isWhitespace).subset h1
  have h3 : c ∈ s.toList.dropWhile Char.isWhitespace := by simpa using h2
  exact (List.dropWhile_suffix Char.isWhitespace).subset h3

/-- Characters of a comment-stripped, trimmed line come from the raw line. -/
theorem memOfStripTrim (l : String) (c0 : Bool) (ch : Char)
    (h : ch ∈ (jsTrim (stripMultilineComments l c0).1).toList) : ch ∈ l.toList := by
  exact stripMC_subset _ _ ch (jsTrim_subset _ ch h)

theorem firstIdx_eq_none (p : Char → Bool) :
    ∀ cs : List Char, firstIdx p cs = none ↔ ∀ c ∈ cs, p c = false := by
  intro cs
  induction cs with
  | nil => simp [firstIdx]
  | cons c t ih =>
      by_cases h : p c = true
      · simp [firstIdx, h]
      · simp only [Bool.not_eq_true] at h
        simp [firstIdx, h, ih]

/-- A line trimming to something that ends in `::` contains a colon. -/
theorem endsWith_colon2_mem (t : String) (h : jsEndsWith t "::" = true) :
    ':' ∈ t.toList := by
  simp only [jsEndsWith] at h
  rcases hrev : t.toList.reverse with _ | ⟨b, u⟩
  · rw [hrev] at h; simp [listStarts] at h
  · rw [hrev] at h
    simp only [listStarts, Bool.and_eq_true, decide_eq_true_eq] at h
    have hb : b ∈ t.toList.reverse := by rw [hrev]; exact List.mem_cons_self _ _
    rw [List.mem_reverse] at hb
    exact h.1 ▸ hb

theorem str_ne_empty_of_mem {t : String} {c : Char} (h : c ∈ t.toList) : t ≠ "" := by
  intro he
  rw [he] at h
  simp at h

/-- No line trimming to `::` means the multiline capture hits end of input. -/
theorem collectMultiline_eq_none (ls : List String) (h : ∀ x ∈ ls, jsTrim x ≠ "::") :
    collectMultiline ls = none := by
  induction ls with
  | nil => rfl
  | cons l tl ih =>
      have h1 : jsTrim l ≠ "::" := h l (List.mem_cons_self _ _)
      simp [collectMultiline, h1, ih fun x hx => h x (List.mem_cons_of_mem _ hx)]

/-- A successful multiline capture leaves a suffix of its input. -/
theorem collectMultiline_suffix :
    ∀ ls r, collectMultiline ls = some r → r.2 <:+ ls := by
  intro ls
  induction ls with
  | nil => intro r h; simp [collectMultiline] at h
  | cons l tl ih =>
      intro r h
      by_cases hcl : jsTrim l = "::"
      · simp [collectMultiline, hcl] at h
        rw [← h]
        exact List.suffix_cons l tl
      · simp only [collectMultiline, hcl, if_false, Option.map_eq_some'] at h
        obtain ⟨p, hp, rfl⟩ := h
        exact (ih p hp).trans (List.suffix_cons l tl)

/-- Every block parser returns a suffix of its input lines: the grammar
is strictly forward-line-consuming. -/
theorem parsersRestSuffix : ∀ fuel : Nat,
    (∀ ls c, (parseArrayFuel fuel ls c).2.1 <:+ ls) ∧
    (∀ ls c, (parseContentArrayFuel fuel ls c).2.1 <:+ ls) ∧
    (∀ cl ls c acc, (parseLinesFuel fuel cl ls c acc).2.1 <:+ ls) := by
  intro fuel
  induction fuel with
  | zero =>
      refine ⟨?_, ?_, ?_⟩ <;> intros <;>
        simp [parseArrayFuel, parseContentArrayFuel, parseLinesFuel]
  | succ n ih =>
      obtain ⟨ihA, ihC, ihL⟩ := ih
      have stepA : ∀ (l : String) (tl : List String) (x : List String),
          x <:+ tl → x <:+ l :: tl := fun l tl x h => h.trans (List.suffix_cons l tl)
      refine ⟨?_, ?_, ?_⟩
      · rintro (_ | ⟨l, tl⟩) c
        · simp [parseArrayFuel]
        · simp only [parseArrayFuel]
          split_ifs with h1 h2 h3 h4
          · exact List.suffix_cons l tl
          · exact stepA l tl _ (ihA tl _)
          · exact stepA l tl _ ((ihA _ _).trans (ihC tl _))
          · exact stepA l tl _ ((ihA _ _).trans (ihA tl _))
          · exact stepA l tl _ (ihA tl _)
      · rintro (_ | ⟨l, tl⟩) c
        · simp [parseContentArrayFuel]
        · simp only [parseContentArrayFuel]
          split_ifs with h1 h2 h3 h4 h5
          · exact List.suffix_cons l tl
          · exact stepA l tl _ (ihC tl _)
          · exact stepA l tl _ ((ihC _ _).trans ((ihL _ _ _ _).trans (ihC tl _)))
          · exact stepA l tl _ ((ihC _ _).trans (ihL _ tl _ _))
          · exact stepA l tl _ (ihC tl _)
          · exact stepA l tl _ (ihC tl _)
      · rintro cl (_ | ⟨l, tl⟩) c acc
        · simp [parseLinesFuel]
        · simp only [parseLinesFuel]
          split_ifs with h1 h2 h3 h4 h5 h6 h7
          · exact List.suffix_cons l tl
          · exact stepA l tl _ (ihL _ tl _ _)
          · rcases hcm : collectMultiline tl with _ | ⟨p⟩
            · simp only [hcm]
              exact List.nil_suffix
            · simp only [hcm]
              exact stepA l tl _ ((ihL _ _ _ _).trans (collectMultiline_suffix tl p hcm))
          · exact stepA l tl _ ((ihL _ _ _ _).trans (ihC tl _))
          · exact stepA l tl _ ((ihL _ _ _ _).trans (ihA tl _))
          · exact stepA l tl _ ((ihL _ _ _ _).trans (ihL _ tl _ _))
          · exact stepA l tl _ (ihL _ tl _ _)
          · exact stepA l tl _ (ihL _ tl _ _)

/-- `contentShaped` in terms of key presence on a mapping. -/
theorem contentShaped_iff (v : Value) : contentShaped v = true ↔
    ∃ o : Obj, v = Value.obj o ∧
      (∃ w, assocGet o "type" = some w) ∧ (∃ w, assocGet o "value" = some w) ∧
      (∃ w, assocGet o "mods" = some w) ∧ (∃ w, assocGet o "props" = some w) := by
  cases v <;> simp [contentShaped, Option.isSome_iff_exists, and_assoc]

/-- A four-entry `{type, value, mods, props}` object is content-shaped. -/
theorem contentShaped_four (a b c d : Value) :
    contentShaped (.obj [("type", a), ("value", b), ("mods", c), ("props", d)]) = true := by
  simp [contentShaped, assocGet]

/-- Items built by the `<...>` branch always carry all four keys. -/
theorem mkContentItem_shaped (ty : String) (cv : Value) (hmods : List String) (props : Obj) :
    contentShaped (mkContentItem ty cv hmods props) = true := by
  unfold mkContentItem
  split
  all_goals split
  all_goals apply contentShaped_four

/-- Every item the content-block parser produces is content-shaped. -/
theorem caItemsShaped : ∀ (fuel : Nat) (ls : List String) (c : Bool),
    (parseContentArrayFuel fuel ls c).1.all contentShaped = true := by
  intro fuel
  induction fuel with
  | zero => intro ls c; simp [parseContentArrayFuel]
  | succ n ih =>
      rintro (_ | ⟨l, tl⟩) c
      · simp [parseContentArrayFuel]
      · simp only [parseContentArrayFuel]
        split_ifs with h1 h2 h3 h4 h5
        · simp
        · exact ih tl _
        · simp only [List.all_cons, Bool.and_eq_true]
          exact ⟨mkContentItem_shaped _ _ _ _, ih _ _⟩
        · simp only [List.all_cons, Bool.and_eq_true]
          exact ⟨mkContentItem_shaped _ _ _ _, ih _ _⟩
        · simp only [List.all_cons, Bool.and_eq_true]
          exact ⟨contentShaped_four _ _ _ _, ih _ _⟩
        · simp only [List.all_cons, Bool.and_eq_true]
          exact ⟨contentShaped_four _ _ _ _, ih _ _⟩

/-- The top-level driver skips a line whose stripped trim has no colon. -/
theorem skipNoColonLine : ∀ (fuel : Nat) (l : String) (tl : List String) (c : Bool) (acc : Obj),
    ':' ∉ (jsTrim (stripMultilineComments l c).1).toList →
    parseLinesFuel (fuel + 1) none (l :: tl) c acc =
      parseLinesFuel fuel none tl (stripMultilineComments l c).2 acc := by
  intro fuel l tl c acc hcolon
  have hends : jsEndsWith (jsTrim (stripMultilineComments l c).1) "::" = false := by
    by_contra h
    simp only [Bool.not_eq_false] at h
    exact hcolon (endsWith_colon2_mem _ h)
  have hcidx : colonIdx (jsTrim (stripMultilineComments l c).1) = none := by
    refine (firstIdx_eq_none _ _).mpr fun ch hch => ?_
    simp only [decide_eq_false_iff_not]
    intro rfl2
    exact hcolon (rfl2 ▸ hch)
  have hgt : colonGt0 (jsTrim (stripMultilineComments l c).1) = false := by
    simp [colonGt0, hcidx]
  simp only [parseLinesFuel, closerHit]
  split_ifs with h1 h2 h3 h4 h5 h6 <;>
    first
      | rfl
      | (exfalso; simp_all)

/-- The top-level driver skips a line whose stripped trim starts with a
colon (and is not a multiline opener). -/
theorem skipColonFirstLine : ∀ (fuel : Nat) (l : String) (tl : List String) (c : Bool) (acc : Obj),
    (jsTrim (stripMultilineComments l c).1).toList.head? = some ':' →
    jsEndsWith (jsTrim (stripMultilineComments l c).1) "::" = false →
    parseLinesFuel (fuel + 1) none (l :: tl) c acc =
      parseLinesFuel fuel none tl (stripMultilineComments l c).2 acc := by
  intro fuel l tl c acc hhead hends
  rcases hlist : (jsTrim (stripMultilineComments l c).1).toList with _ | ⟨b, u⟩
  · rw [hlist] at hhead; simp at hhead
  · rw [hlist] at hhead
    simp only [List.head?_cons, Option.some.injEq] at hhead
    subst hhead
    have hne : jsTrim (stripMultilineComments l c).1 ≠ "" := str_ne_empty_of_mem (by
      rw [hlist]; exact List.mem_cons_self _ _)
    have hstart : jsStartsWith (jsTrim (stripMultilineComments l c).1) "//" = false := by
      simp only [jsStartsWith, hlist]
      simp [listStarts]
    have hlist2 : (jsTrim (stripMultilineComments l c).1).data = ':' :: u := hlist
    have hgt : colonGt0 (jsTrim (stripMultilineComments l c).1) = false := by
      simp [colonGt0, colonIdx, firstIdx, hlist2]
    simp only [parseLinesFuel, closerHit]
    split_ifs with h1 h2 h3 h4 h5 h6 <;>
      first
        | rfl
        | (exfalso; simp_all)

/-- An array block with no `]` anywhere ahead consumes every remaining line. -/
theorem parseArray_noCloser : ∀ fuel ls c, 2 * ls.length + 1 ≤ fuel →
    (∀ l ∈ ls, (']' : Char) ∉ l.toList) → (parseArrayFuel fuel ls c).2.1 = [] := by
  intro fuel
  induction fuel with
  | zero => intro ls c hf _; omega
  | succ n ih =>
      rintro (_ | ⟨l, tl⟩) c hf hmem
      · simp [parseArrayFuel]
      · have hmemtl : ∀ x ∈ tl, (']' : Char) ∉ x.toList :=
          fun x hx => hmem x (List.mem_cons_of_mem _ hx)
        have hlentl : 2 * tl.length + 1 ≤ n := by
          simp only [List.length_cons] at hf; omega
        simp only [parseArrayFuel]
        split_ifs with h1 h2 h3 h4
        · exfalso
          have hcl : (']' : Char) ∈ (jsTrim (stripMultilineComments l c).1).toList := by
            rw [h1]; simp
          exact hmem l (List.mem_cons_self _ _) (memOfStripTrim l c ']' hcl)
        · exact ih tl _ hlentl hmemtl
        · have hsfx := (parsersRestSuffix n).2.1 tl (stripMultilineComments l c).2
          exact ih _ _ (by have := hsfx.length_le; omega)
            (fun x hx => hmemtl x (hsfx.subset hx))
        · have hsfx := (parsersRestSuffix n).1 tl (stripMultilineComments l c).2
          exact ih _ _ (by have := hsfx.length_le; omega)
            (fun x hx => hmemtl x (hsfx.subset hx))
        · exact ih tl _ hlentl hmemtl

/-- A multiline opener with no closing `::` ahead consumes everything and
assigns nothing. -/
theorem multilineUnterminated :
    ∀ (fuel : Nat) (l : String) (tl : List String) (c : Bool) (acc : Obj),
    jsEndsWith (jsTrim (stripMultilineComments l c).1) "::" = true →
    jsStartsWith (jsTrim (stripMultilineComments l c).1) "//" = false →
    (∀ x ∈ tl, jsTrim x ≠ "::") →
    parseLinesFuel (fuel + 1) none (l :: tl) c acc = (acc, [], (stripMultilineComments l c).2) := by
  intro fuel l tl c acc hends hstart hnone
  have hne : jsTrim (stripMultilineComments l c).1 ≠ "" :=
    str_ne_empty_of_mem (endsWith_colon2_mem _ hends)
  have hcm := collectMultiline_eq_none tl hnone
  simp only [parseLinesFuel, closerHit]
  split_ifs with h1 h2 <;> simp_all

/-! ## Claims -/

/-- Claim C1: the spec asserts `parse(stringify(parse d)) = parse d` for
every document `d` (deep structural equality).  Evaluating the code
refutes it: `"a::\n3\n::"` parses to the *string* `"3"` (multiline
capture, no scalar coercion), serializes to the line `a: 3`, and
reparses to the *number* `3`. -/
theorem C1_roundtrip_fails_on_numeric_multiline_string :
    parse "a::\n3\n::" = [("a", Value.str "3")] ∧
    stringify (parse "a::\n3\n::") = "a: 3" ∧
    parse (stringify (parse "a::\n3\n::")) = [("a", Value.num 3)] ∧
    parse (stringify (parse "a::\n3\n::")) ≠ parse "a::\n3\n::" := by
  refine ⟨by decide, by decide, by decide, by decide⟩

/-- Claim C2: the inline-markup entry point, on `"Click [here|/go] now"`,
splits on the unescaped brackets and treats the first pipe parameter
starting with `/` as a link, yielding a `text` item, an `a` item with an
`href` property, and a trailing `text` item. -/
theorem C2_parseInline_link_shorthand :
    parseContentValue "Click [here|/go] now" =
      [Value.obj [("type", Value.str "text"), ("value", Value.str "Click ")],
       Value.obj [("type", Value.str "a"), ("value", Value.str "here"),
                  ("props", Value.obj [("href", Value.str "/go")])],
       Value.obj [("type", Value.str "text"), ("value", Value.str " now")]] := by
  decide

/-- Claim C3: a list reaches content-block brackets iff it is non-empty
and every element is a mapping carrying all four keys `type`, `value`,
`mods`, `props` (the empty list takes plain array brackets): the
detection predicate is characterized exactly, and both serializer sites
that render a list pick `[[` versus `[` by that predicate. -/
theorem C3_content_block_detection_exact :
    (∀ arr : List Value, isContentArray arr = true ↔
      arr ≠ [] ∧ ∀ item ∈ arr, ∃ o : Obj, item = Value.obj o ∧
        (∃ w, assocGet o "type" = some w) ∧ (∃ w, assocGet o "value" = some w) ∧
        (∃ w, assocGet o "mods" = some w) ∧ (∃ w, assocGet o "props" = some w)) ∧
    (∀ (fuel : Nat) (k indent : String) (arr : List Value),
      (stringifyObjectEntriesFuel (fuel + 1) [(k, Value.list arr)] indent).head? =
        some (if isContentArray arr then indent ++ k ++ ": [[" else indent ++ k ++ ": [")) ∧
    (∀ (k indent : String) (arr : List Value),
      (stringifyObjectEntries [(k, Value.list arr)] indent).head? =
        some (if isContentArray arr then indent ++ k ++ ": [[" else indent ++ k ++ ": [")) ∧
    (∀ (fuel : Nat) (indent : String) (arr : List Value),
      (stringifyArrayFuel (fuel + 1) [Value.list arr] indent).head? =
        some (if isContentArray arr then indent ++ "[[" else indent ++ "[")) := by
  have hhead : ∀ (fuel : Nat) (k indent : String) (arr : List Value),
      (stringifyObjectEntriesFuel (fuel + 1) [(k, Value.list arr)] indent).head? =
        some (if isContentArray arr then indent ++ k ++ ": [[" else indent ++ k ++ ": [") := by
    intro fuel k indent arr
    simp only [stringifyObjectEntriesFuel]
    rcases h : isContentArray arr <;> simp [h]
  refine ⟨?_, hhead, ?_, ?_⟩
  · intro arr
    simp only [isContentArray, Bool.and_eq_true, Bool.not_eq_true', List.all_eq_true]
    constructor
    · rintro ⟨hne, hall⟩
      refine ⟨?_, fun item hm => (contentShaped_iff item).mp (hall item hm)⟩
      intro hnil
      rw [hnil] at hne
      simp at hne
    · rintro ⟨hne, hall⟩
      refine ⟨?_, fun item hm => (contentShaped_iff item).mpr (hall item hm)⟩
      cases arr with
      | nil => exact absurd rfl hne
      | cons a t => simp
  · intro k indent arr
    have hsz : szO [(k, Value.list arr)] + 2 = (szL arr + 2) + 1 := by
      simp [szO, szV]
      omega
    rw [stringifyObjectEntries, hsz]
    exact hhead _ _ _ _
  · intro fuel indent arr
    simp only [stringifyArrayFuel]
    rcases h : isContentArray arr <;> simp [h]

/-- Witness for C3 at a concrete array. -/
theorem C3_content_block_detection_exact_witness :
    [Value.obj [("type", Value.str "h"), ("value", Value.str "v"),
                ("mods", Value.list []), ("props", Value.obj [])]] ≠ ([] : List Value) :=
  ((C3_content_block_detection_exact.1 _).mp (by decide)).1

/-- Claim C4: the claim expects the three single-line documents
`a.b.c: x`, `a: {b: {c: x}}`, `a: {b.c: x}` to parse identically, but
object blocks only open on a line *ending* with the brace, so the
single-line brace forms parse to plain string values. -/
theorem C4_single_line_brace_forms_counterexample :
    parse "a: \x7bb: \x7bc: x\x7d\x7d" = [("a", Value.str "\x7bb: \x7bc: x\x7d\x7d")] ∧
    parse "a: \x7bb.c: x\x7d" = [("a", Value.str "\x7bb.c: x\x7d")] ∧
    parse "a.b.c: x" = [("a", Value.obj [("b", Value.obj [("c", Value.str "x")])])] ∧
    parse "a: \x7bb: \x7bc: x\x7d\x7d" ≠ parse "a.b.c: x" ∧
    parse "a: \x7bb.c: x\x7d" ≠ parse "a.b.c: x" := by
  refine ⟨by decide, by decide, by decide, by decide, by decide⟩

/-- Claim C4 (amended): `parse "a.b.c: x"` gives `{a: {b: {c: "x"}}}`,
and the brace forms agree with it when written as multi-line blocks
(the opener line ending with the brace). -/
theorem C4_nested_dot_bracket_equivalence_amended :
    parse "a.b.c: x" = [("a", Value.obj [("b", Value.obj [("c", Value.str "x")])])] ∧
    parse "a: \x7b\nb: \x7b\nc: x\n\x7d\n\x7d" = parse "a.b.c: x" ∧
    parse "a: \x7b\nb.c: x\n\x7d" = parse "a.b.c: x" := by
  refine ⟨by decide, by decide, by decide⟩

/-- Claim C5: the claim (and the test suite) expect content items with
empty `mods`/`props` to omit those keys, but the code materializes
`mods: []` and `props: {}` on every item it pushes. -/
theorem C5_content_block_materializes_empty_mods_props :
    parse "body: [[\n#h: Hi\nSome text.\n]]" =
      [("body", Value.list
        [Value.obj [("type", Value.str "h"), ("value", Value.str "Hi"),
                    ("mods", Value.list []), ("props", Value.obj [])],
         Value.obj [("type", Value.str "p"), ("value", Value.str "Some text."),
                    ("mods", Value.list []), ("props", Value.obj [])]])] ∧
    parse "body: [[\n#h: Hi\nSome text.\n]]" ≠
      [("body", Value.list
        [Value.obj [("type", Value.str "h"), ("value", Value.str "Hi")],
         Value.obj [("type", Value.str "p"), ("value", Value.str "Some text.")]])] := by
  refine ⟨by decide, by decide⟩

/-- Claim C6: scalar coercion is total and classifies in priority order —
exactly `true`/`false` gives a boolean, a full-string decimal literal
gives the number, everything else stays the unmodified string — and the
three-line concrete document parses accordingly. -/
theorem C6_scalar_coercion_priority (s : String) :
    parseValue "true" = Value.bool true ∧
    parseValue "false" = Value.bool false ∧
    (matchesNumber s = true → parseValue s = Value.num (decToRat s)) ∧
    (matchesNumber s = false → s ≠ "true" → s ≠ "false" → parseValue s = Value.str s) ∧
    parseValue "34px" = Value.str "34px" ∧
    parseValue "v1.2.3" = Value.str "v1.2.3" ∧
    parse "title: Hello\ncount: 3\nactive: true" =
      [("title", Value.str "Hello"), ("count", Value.num 3), ("active", Value.bool true)] := by
  refine ⟨by decide, by decide, ?_, ?_, by decide, by decide, by decide⟩
  · intro h
    by_cases h1 : s = "true"
    · subst h1; exact absurd h (by decide)
    · by_cases h2 : s = "false"
      · subst h2; exact absurd h (by decide)
      · simp [parseValue, h1, h2, h]
  · intro h h1 h2
    simp [parseValue, h1, h2, h]

/-- Witness for C6 at concrete tokens. -/
theorem C6_scalar_coercion_priority_witness :
    parseValue "-12.5" = Value.num (decToRat "-12.5") ∧ parseValue "34px" = Value.str "34px" :=
  ⟨(C6_scalar_coercion_priority "-12.5").2.2.1 (by decide),
   (C6_scalar_coercion_priority "34px").2.2.2.1 (by decide) (by decide) (by decide)⟩

/-- Claim C7: the path merger replaces any non-mapping at a non-terminal
segment with a fresh mapping and descends; at the terminal segment it
merges mapping-into-mapping (incoming keys win, pre-existing key order
kept, new keys appended) and otherwise assigns — so `a.b: x` then
`a.c: y` yields `{a: {b: x, c: y}}`. -/
theorem C7_setByPath_merge_semantics :
    (∀ (o : Obj) (k k2 : String) (rest : List String) (v : Value),
      (∀ m : Obj, assocGet o k ≠ some (Value.obj m)) →
      setByPathParts o (k :: k2 :: rest) v =
        assocSet o k (Value.obj (setByPathParts [] (k2 :: rest) v))) ∧
    (∀ (o : Obj) (k k2 : String) (rest : List String) (v : Value) (m : Obj),
      assocGet o k = some (Value.obj m) →
      setByPathParts o (k :: k2 :: rest) v =
        assocSet o k (Value.obj (setByPathParts m (k2 :: rest) v))) ∧
    (∀ (o : Obj) (k : String) (inc m : Obj),
      assocGet o k = some (Value.obj m) →
      setByPathParts o [k] (Value.obj inc) = assocSet o k (Value.obj (objAssign m inc))) ∧
    (∀ (o : Obj) (k : String) (v : Value),
      (∀ m : Obj, v ≠ Value.obj m) → setByPathParts o [k] v = assocSet o k v) ∧
    (∀ (o : Obj) (k : String) (v : Value),
      (∀ m : Obj, assocGet o k ≠ some (Value.obj m)) → setByPathParts o [k] v = assocSet o k v) ∧
    (∀ (m inc : Obj) (k : String), (objKeys inc).Nodup →
      assocGet (objAssign m inc) k =
        (match assocGet inc k with
         | some w => some w
         | none => assocGet m k)) ∧
    (∀ (m inc : Obj), (objKeys inc).Nodup →
      objKeys (objAssign m inc) =
        objKeys m ++ (objKeys inc).filter (fun x => decide (x ∉ objKeys m))) ∧
    (∀ x y : Value, setByPath (setByPath [] "a.b" x) "a.c" y =
      [("a", Value.obj [("b", x), ("c", y)])]) := by
  refine ⟨?_, ?_, ?_, ?_, ?_, ?_, ?_, ?_⟩
  · intro o k k2 rest v h
    rcases hg : assocGet o k with _ | w
    · simp only [setByPathParts, hg]
    · cases w with
      | obj m => exact absurd hg (h m)
      | str a => simp only [setByPathParts, hg]
      | num a => simp only [setByPathParts, hg]
      | bool a => simp only [setByPathParts, hg]
      | list a => simp only [setByPathParts, hg]
  · intro o k k2 rest v m hg
    simp only [setByPathParts]
    simp [hg]
  · intro o k inc m hg
    simp only [setByPathParts]
    simp [hg]
  · intro o k v h
    cases v with
    | obj m => exact absurd rfl (h m)
    | str a =>
        simp only [setByPathParts]
        rcases hg : assocGet o k with _ | w <;> simp [hg]
    | num a =>
        simp only [setByPathParts]
        rcases hg : assocGet o k with _ | w <;> simp [hg]
    | bool a =>
        simp only [setByPathParts]
        rcases hg : assocGet o k with _ | w <;> simp [hg]
    | list a =>
        simp only [setByPathParts]
        rcases hg : assocGet o k with _ | w <;> simp [hg]
  · intro o k v h
    simp only [setByPathParts]
    rcases hg : assocGet o k with _ | w
    · cases v <;> simp [hg]
    · cases w with
      | obj m => exact absurd hg (h m)
      | str a => cases v <;> simp [hg]
      | num a => cases v <;> simp [hg]
      | bool a => cases v <;> simp [hg]
      | list a => cases v <;> simp [hg]
  · exact fun m inc k h => objAssign_get inc m k h
  · exact fun m inc h => objAssign_keys inc m h
  · intro x y
    cases x <;> cases y <;> rfl

/-- Witness for C7: a fresh-mapping descent and a last-write-wins merge
at concrete inputs. -/
theorem C7_setByPath_merge_semantics_witness :
    setByPathParts [("a", Value.str "s")] ["a", "b"] (Value.str "x") =
      [("a", Value.obj [("b", Value.str "x")])] ∧
    assocGet (objAssign [("p", Value.num 1)] [("p", Value.num 2), ("q", Value.bool true)]) "p" =
      some (Value.num 2) := by
  constructor
  · have h := C7_setByPath_merge_semantics.1 [("a", Value.str "s")] "a" "b" [] (Value.str "x")
      (by intro m; simp [assocGet])
    rw [h]
    decide
  · have h := C7_setByPath_merge_semantics.2.2.2.2.2.1 [("p", Value.num 1)]
      [("p", Value.num 2), ("q", Value.bool true)] "p" (by decide)
    rw [h]
    decide

/-- Claim C8: parsing is total and lenient — a line whose stripped trim
has no colon (or starts with one) while matching no opener is skipped
with no effect on the result, and an array block whose `]` never occurs
consumes lines to end-of-input, the accumulated elements becoming the
value (concrete case: an unterminated `[` block). -/
theorem C8_lenient_skip_and_run_to_eof :
    (∀ (fuel : Nat) (l : String) (tl : List String) (c : Bool) (acc : Obj),
      ':' ∉ (jsTrim (stripMultilineComments l c).1).toList →
      parseLinesFuel (fuel + 1) none (l :: tl) c acc =
        parseLinesFuel fuel none tl (stripMultilineComments l c).2 acc) ∧
    (∀ (fuel : Nat) (l : String) (tl : List String) (c : Bool) (acc : Obj),
      (jsTrim (stripMultilineComments l c).1).toList.head? = some ':' →
      jsEndsWith (jsTrim (stripMultilineComments l c).1) "::" = false →
      parseLinesFuel (fuel + 1) none (l :: tl) c acc =
        parseLinesFuel fuel none tl (stripMultilineComments l c).2 acc) ∧
    (∀ (fuel : Nat) (ls : List String) (c : Bool), 2 * ls.length + 1 ≤ fuel →
      (∀ l ∈ ls, (']' : Char) ∉ l.toList) →
      (parseArrayFuel fuel ls c).2.1 = []) ∧
    parse "a: [\n1\n2" = [("a", Value.list [Value.num 1, Value.num 2])] :=
  ⟨skipNoColonLine, skipColonFirstLine, parseArray_noCloser, by decide⟩

/-- Witness for C8: a colon-free line is skipped, and an unterminated
array runs to end-of-input, at concrete inputs. -/
theorem C8_lenient_skip_and_run_to_eof_witness :
    parseLinesFuel (5 + 1) none ["just a line", "k: v"] false [] =
      parseLinesFuel 5 none ["k: v"] (stripMultilineComments "just a line" false).2 [] ∧
    (parseArrayFuel 9 ["1", "2"] false).2.1 = [] :=
  ⟨C8_lenient_skip_and_run_to_eof.1 5 "just a line" ["k: v"] false [] (by decide),
   C8_lenient_skip_and_run_to_eof.2.2.1 9 ["1", "2"] false (by decide) (by decide)⟩

/-- Claim C9: every content item the content-block parser produces
carries all four keys, so every *non-empty* parsed content block
satisfies the serializer's detection predicate — but the claim's
unrestricted "every list" fails on the empty block, which
`isContentArray` rejects. -/
theorem C9_empty_content_block_counterexample :
    parse "body: [[\n]]" = [("body", Value.list [])] ∧
    isContentArray [] = false := by
  refine ⟨by decide, by decide⟩

/-- Claim C9 (amended): all items produced by the content-block parser
are content-shaped, hence every non-empty parsed content block passes
`isContentArray`. -/
theorem C9_content_items_all_four_keys :
    ∀ (fuel : Nat) (ls : List String) (c : Bool),
      (∀ item ∈ (parseContentArrayFuel fuel ls c).1, contentShaped item = true) ∧
      ((parseContentArrayFuel fuel ls c).1 ≠ [] →
        isContentArray (parseContentArrayFuel fuel ls c).1 = true) := by
  intro fuel ls c
  have h := caItemsShaped fuel ls c
  refine ⟨fun item hm => List.all_eq_true.mp h item hm, fun hne => ?_⟩
  have hemp : (parseContentArrayFuel fuel ls c).1.isEmpty = false := by
    cases hv : (parseContentArrayFuel fuel ls c).1 with
    | nil => exact absurd hv hne
    | cons a t => simp
  simp [isContentArray, hemp, h]

/-- Witness for C9 at a concrete content block. -/
theorem C9_content_items_all_four_keys_witness :
    isContentArray (parseContentArrayFuel 5 ["#h: Hi", "]]"] false).1 = true :=
  (C9_content_items_all_four_keys 5 ["#h: Hi", "]]"] false).2 (by decide)

/-- Claim C10: a `key::` opener never followed by a line trimming to
`::` consumes the captured lines to end-of-input and leaves the result
exactly as accumulated — the key is never bound (concrete cases: the
whole document, and a document with an earlier binding). -/
theorem C10_unterminated_multiline_drops_key :
    (∀ (fuel : Nat) (l : String) (tl : List String) (c : Bool) (acc : Obj),
      jsEndsWith (jsTrim (stripMultilineComments l c).1) "::" = true →
      jsStartsWith (jsTrim (stripMultilineComments l c).1) "//" = false →
      (∀ x ∈ tl, jsTrim x ≠ "::") →
      parseLinesFuel (fuel + 1) none (l :: tl) c acc =
        (acc, [], (stripMultilineComments l c).2)) ∧
    parse "a::\nx\ny" = [] ∧
    parse "before: 1\na::\nx" = [("before", Value.num 1)] ∧
    assocGet (parse "before: 1\na::\nx") "a" = none :=
  ⟨multilineUnterminated, by decide, by decide, by decide⟩

/-- Witness for C10 at a concrete opener. -/
theorem C10_unterminated_multiline_drops_key_witness :
    parseLinesFuel (3 + 1) none ["a::", "x"] false [] =
      ([], [], (stripMultilineComments "a::" false).2) :=
  C10_unterminated_multiline_drops_key.1 3 "a::" ["x"] false []
    (by decide) (by decide) (by decide)
